import Mathlib

/-!
Shallow embedding of `scripts/cartpole_q_learning.py` (repository
111989/Q-Learning) and verification of its specification claims.

Real-valued quantities of the program are modelled over `ℚ` (exact
arithmetic); the epsilon schedule, which goes through `np.exp`, is modelled
over `ℝ`.  The gym simulator, rendering and plotting are external
collaborators and are out of scope; the environment enters only through the
per-step rewards and observations, which theorems quantify over.
-/

namespace CartpoleQ

/-! Section: numpy primitives used by the script, over `ℚ`. -/

/-- Model of `np.linspace lo hi n`: `n` evenly spaced values from `lo` to
`hi`.  (For `n = 1`, `ℚ` division by zero yields `0`, so the list is `[lo]`,
matching numpy.) -/
def npLinspace (lo hi : ℚ) (n : ℕ) : List ℚ :=
  (List.range n).map (fun k : ℕ => lo + (k : ℚ) * (hi - lo) / ((n : ℚ) - 1))

/-- Model of `np.digitize v edges` (default `right=False`) for ascending
`edges`: the number of edges `e` with `e ≤ v`, i.e. the index `i` such that
`edges[i-1] ≤ v < edges[i]`, `0` below the first edge and `edges.length` at
or above the last. -/
def npDigitize (v : ℚ) (edges : List ℚ) : ℕ :=
  edges.countP (fun e => decide (e ≤ v))

/-- Model of `np.max` on a nonempty array (`[]` is mapped to a junk value
`0`; the program only applies it to nonempty Q-table rows). -/
def npMax : List ℚ → ℚ
  | [] => 0
  | x :: xs => xs.foldl max x

/-- Model of `np.argmax`: the index of the first occurrence of the maximum
value of the array. -/
def npArgmax (l : List ℚ) : ℕ :=
  l.findIdx (fun x => decide (npMax l ≤ x))

/-! Section: MyEnvironment (the CartPole branch of `__init__`). -/

/-- Value `self.n_bins = 20` set by `MyEnvironment.__init__` when `'CartPole'`
occurs in the environment name. -/
def cartpole_n_bins : ℕ := 20

/-- CartPole's observation vector has 4 components
(`len(self.environment.observation_space.high)`; gym metadata, an external
collaborator fact). -/
def obs_dim : ℕ := 4

/-- The four per-dimension bin-edge tables `self.bins` built by
`MyEnvironment.__init__` in the CartPole branch. -/
def cartpole_bins : List (List ℚ) :=
  [npLinspace (-4.8) 4.8 cartpole_n_bins,
   npLinspace (-4) 4 cartpole_n_bins,
   npLinspace (-0.418) 0.418 cartpole_n_bins,
   npLinspace (-4) 4 cartpole_n_bins]

/-- Model of `MyEnvironment.get_action_space_length` in the CartPole branch. -/
def get_action_space_length : ℕ := 2

/-- Model of `MyEnvironment.get_observation_space_length` in the CartPole branch:
`[self.n_bins+1] * len(observation_space.high)`. -/
def get_observation_space_length : List ℕ :=
  List.replicate obs_dim (cartpole_n_bins + 1)

/-- Model of `MyEnvironment.set_observation` in the CartPole branch: for every
dimension `i`, `np.digitize(observation[i], self.bins[i]) - 1`.  The raw
observation is modelled as a function from dimension index to value; the
subtraction lands in `ℤ` because `np.digitize` can return `0`. -/
def set_observation (observation : ℕ → ℚ) : List ℤ :=
  (List.range obs_dim).map (fun i =>
    (npDigitize (observation i) (cartpole_bins.getD i []) : ℤ) - 1)

/-- First (lowest) bin edge of dimension `i`. -/
def lowEdge (i : ℕ) : ℚ := (cartpole_bins.getD i []).getD 0 0

/-- Last (highest) bin edge of dimension `i`. -/
def highEdge (i : ℕ) : ℚ := (cartpole_bins.getD i []).getD (cartpole_n_bins - 1) 0

/-- Substring containment, modelling Python's `'CartPole' in name`. -/
def strContains (s pat : String) : Bool :=
  (List.range (s.toList.length + 1)).any
    (fun k => (s.toList.drop k).take pat.toList.length == pat.toList)

/-- Result of `MyEnvironment.__init__` for a given environment name, as far
as the adapter's own attributes are concerned (the gym handle is external).
`none` models an attribute the constructor never assigned. -/
structure MyEnvironment where
  environment_name : String
  n_bins : Option ℕ
  bins : Option (List (List ℚ))
  deriving Repr, DecidableEq

/-- Model of `MyEnvironment.__init__`: only when `'CartPole'` occurs in the name are
`n_bins` and `bins` assigned; otherwise the constructor completes with them
unset.  No exception of any kind is raised by the constructor itself. -/
def MyEnvironment.init (environment_name : String) : MyEnvironment :=
  if strContains environment_name "CartPole" then
    ⟨environment_name, some cartpole_n_bins, some cartpole_bins⟩
  else
    ⟨environment_name, none, none⟩

/-! Section: Agent.

The Q-table `np.random.uniform(low=-2, high=0, size=obs_shape+[n_actions])`
is a dense array indexed by discretized state and action; it is modelled as
a map from state to its action-value row (`self.q_table[observation]` is
exactly such a row in the source).  The random initial content and the
state index type are parameters.  The epsilon schedule
`np.exp(-5 * np.linspace(0, 1, n_episodes))` goes through `exp`, so it is
modelled separately over `ℝ` (`epsilonSchedule` below); `act` receives the
already-looked-up value `self.epsilon[episode_number]` together with the
draw of `np.random.uniform(1.0, 0.0)` and of `action_space.sample()`. -/

structure Agent (σ : Type) where
  q_table : σ → List ℚ
  learning_rate : ℚ
  gamma : ℚ

/-- Model of `self.epsilon = np.exp(-5 * np.linspace(0, 1, n_episodes))`,
computed once at `Agent.__init__`.  (`Real.exp` carries no executable code,
so this single definition is marked noncomputable; the underlying linspace
grid stays computable.) -/
noncomputable def epsilonSchedule (n_episodes : ℕ) : List ℝ :=
  (npLinspace 0 1 n_episodes).map (fun x : ℚ => Real.exp (-5 * (x : ℝ)))

/-- Model of `Agent.act`: if the uniform draw `u` is below
`self.epsilon[episode_number]` (passed as `epsilon_e`), return the random
sample; else `np.argmax(self.q_table[observation])`.  The method performs no
assignment, so the agent it leaves behind is returned unchanged. -/
def Agent.act {σ : Type} (ag : Agent σ) (observation : σ)
    (u epsilon_e : ℚ) (sample : ℕ) : ℕ × Agent σ :=
  if u < epsilon_e then (sample, ag)
  else (npArgmax (ag.q_table observation), ag)

/-- Model of `Agent.update`: read `q_value = Q[s][a]`, set
`target = reward + gamma * max(Q[s'])`, write
`Q[s][a] += learning_rate * (target - q_value)` (a single-entry in-place
write, modelled functionally), and return the re-read new entry minus
`q_value`, exactly as the source does. -/
def Agent.update {σ : Type} [DecidableEq σ] (ag : Agent σ) (observation : σ)
    (action : ℕ) (next_observation : σ) (reward : ℚ) : Agent σ × ℚ :=
  let q_value := (ag.q_table observation).getD action 0
  let next_q_value_estimate := npMax (ag.q_table next_observation)
  let temporal_difference_target := reward + ag.gamma * next_q_value_estimate
  let new_table : σ → List ℚ := fun s =>
    if s = observation then
      (ag.q_table observation).set action
        (q_value + ag.learning_rate * (temporal_difference_target - q_value))
    else ag.q_table s
  ({ ag with q_table := new_table },
   (new_table observation).getD action 0 - q_value)

/-- Shape of the Q-table allocated by `Agent.__init__` for the CartPole
configuration: `observation_space_length + [action_space_length]`. -/
def qTableShape : List ℕ :=
  get_observation_space_length ++ [get_action_space_length]

/-! Section: the training loop (`main`).

One executed environment step contributes a reward (from
`environment.step()`) and the delta returned by `agent.update`; a whole
episode is the list of its steps.  The statistics and the break condition
of `main` are functions of these, so the loop is modelled over an arbitrary
assignment of a step list to each episode index. -/

structure Step where
  reward : ℚ
  delta : ℚ
  deriving Repr, DecidableEq

/-- Constant `running_length = 5` in `main`. -/
def runningLength : ℕ := 5

/-- The per-episode accuracy `main` records:
`optimal_actions / episode_count`.  `episode_count` starts at `1` and is
incremented once per step, so the denominator is `steps + 1`, and
`optimal_actions` counts the steps with `reward > 0.0`. -/
def episodeAccuracy (steps : List Step) : ℚ :=
  (steps.countP (fun st => decide (0 < st.reward)) : ℚ) / ((steps.length : ℚ) + 1)

/-- The per-episode cumulative delta `main` records: `sum(delta_update)`. -/
def episodeDelta (steps : List Step) : ℚ :=
  (steps.map Step.delta).sum

/-- The first disjunct of the break condition in `main`:
`episode_index >= n_episodes + running_length`. -/
def stopBoundExceeded (n_episodes running_length episode_index : ℕ) : Bool :=
  decide (n_episodes + running_length ≤ episode_index)

/-- The break condition of `main`, evaluated after the episode's statistics
have been appended: stop when the safety bound is exceeded, or when every
recorded accuracy equals `1.0`, every recorded delta is `< 0.0001` (signed
comparison, as in the source) and `episode_index >= running_length`. -/
def breakCondition (n_episodes running_length episode_index : ℕ)
    (running_accuracy running_delta : List ℚ) : Bool :=
  stopBoundExceeded n_episodes running_length episode_index ||
    (running_accuracy.all (fun accuracy => decide (accuracy = 1)) &&
     running_delta.all (fun delta => decide (delta < 1 / 10000)) &&
     decide (running_length ≤ episode_index))

/-- One iteration of the `for episode_index in range(n_episodes)` loop:
once broken (first component `some _`, recording how many episodes ran),
the remaining indices are skipped; otherwise append the episode's accuracy
and cumulative delta and evaluate the break condition. -/
def loopStep (n_episodes running_length : ℕ) (traces : ℕ → List Step)
    (st : Option ℕ × List ℚ × List ℚ) (episode_index : ℕ) :
    Option ℕ × List ℚ × List ℚ :=
  match st with
  | (some stopped, accs, dels) => (some stopped, accs, dels)
  | (none, accs, dels) =>
    let accs₂ := accs ++ [episodeAccuracy (traces episode_index)]
    let dels₂ := dels ++ [episodeDelta (traces episode_index)]
    if breakCondition n_episodes running_length episode_index accs₂ dels₂ then
      (some (episode_index + 1), accs₂, dels₂)
    else (none, accs₂, dels₂)

/-- Number of episodes the training loop of `main` executes, given the
step list of each episode. -/
def episodesRun (n_episodes running_length : ℕ) (traces : ℕ → List Step) : ℕ :=
  (((List.range n_episodes).foldl
      (loopStep n_episodes running_length traces) (none, [], [])).1).getD n_episodes

/-! Section: helper lemmas about `npMax` and `npArgmax`. -/

lemma foldl_max_init_le (x : ℚ) (xs : List ℚ) : x ≤ xs.foldl max x := by
  induction xs generalizing x with
  | nil => exact le_refl x
  | cons y ys ih =>
    rw [List.foldl_cons]
    exact le_trans (le_max_left x y) (ih (max x y))

lemma le_foldl_max_of_mem {y : ℚ} (xs : List ℚ) (x : ℚ) (hy : y ∈ xs) :
    y ≤ xs.foldl max x := by
  induction xs generalizing x with
  | nil => cases hy
  | cons z zs ih =>
    rw [List.foldl_cons]
    rcases List.mem_cons.mp hy with h | h
    · subst h
      exact le_trans (le_max_right x y) (foldl_max_init_le (max x y) zs)
    · exact ih (max x z) h

lemma foldl_max_mem (x : ℚ) (xs : List ℚ) :
    xs.foldl max x = x ∨ xs.foldl max x ∈ xs := by
  induction xs generalizing x with
  | nil => exact Or.inl rfl
  | cons y ys ih =>
    rw [List.foldl_cons]
    rcases ih (max x y) with h | h
    · rcases max_choice x y with hx | hy
      · exact Or.inl (by rw [h, hx])
      · exact Or.inr (by rw [h, hy]; exact List.mem_cons_self y ys)
    · exact Or.inr (List.mem_cons_of_mem y h)

lemma le_npMax_of_mem {y : ℚ} {l : List ℚ} (hy : y ∈ l) : y ≤ npMax l := by
  cases l with
  | nil => cases hy
  | cons x xs =>
    rcases List.mem_cons.mp hy with h | h
    · subst h; exact foldl_max_init_le y xs
    · exact le_foldl_max_of_mem xs x h

lemma npMax_mem {l : List ℚ} (h : l ≠ []) : npMax l ∈ l := by
  cases l with
  | nil => exact absurd rfl h
  | cons x xs =>
    rcases foldl_max_mem x xs with h1 | h1
    · rw [npMax, h1]; exact List.mem_cons_self x xs
    · exact List.mem_cons_of_mem x h1

lemma npArgmax_lt_length {l : List ℚ} (h : l ≠ []) : npArgmax l < l.length :=
  List.findIdx_lt_length_of_exists ⟨npMax l, npMax_mem h, by simp⟩

lemma getD_npArgmax {l : List ℚ} (h : l ≠ []) : l.getD (npArgmax l) 0 = npMax l := by
  have hlt : npArgmax l < l.length := npArgmax_lt_length h
  have hlt' : l.findIdx (fun x => decide (npMax l ≤ x)) < l.length := hlt
  have hp : decide (npMax l ≤ l[npArgmax l]) = true :=
    @List.findIdx_getElem _ _ _ hlt'
  have h1 : npMax l ≤ l[npArgmax l] := of_decide_eq_true hp
  have h2 : l[npArgmax l] ≤ npMax l := le_npMax_of_mem (l.getElem_mem hlt)
  rw [List.getD_eq_getElem?_getD, List.getElem?_eq_getElem hlt]
  exact le_antisymm h2 h1

lemma npArgmax_le_of_eq_npMax {l : List ℚ} {k : ℕ} (hk : k < l.length)
    (hv : l.getD k 0 = npMax l) : npArgmax l ≤ k := by
  by_contra hcon
  push_neg at hcon
  have hcon' : k < l.findIdx (fun x => decide (npMax l ≤ x)) := hcon
  have hfalse := List.not_of_lt_findIdx hcon'
  rw [List.getD_eq_getElem?_getD, List.getElem?_eq_getElem hk] at hv
  simp only [decide_eq_false_iff_not, not_le] at hfalse
  exact absurd hv (ne_of_lt hfalse)

/-! Section: claim theorems about action selection and update. -/

/-- Claim C10: `Agent.act` never mutates the Q-table: the agent state after
any call — exploring or exploiting — carries a Q-table identical to the one
before the call. -/
theorem c10_act_preserves_q_table {σ : Type} (ag : Agent σ) (observation : σ)
    (u epsilon_e : ℚ) (sample : ℕ) :
    ((ag.act observation u epsilon_e sample).2).q_table = ag.q_table := by
  unfold Agent.act
  by_cases h : u < epsilon_e <;> simp [h]

/-- Claim C7: When `Agent.act` takes the exploitation branch (the uniform
draw is not below epsilon), it returns `np.argmax` of the state's Q-row: an
action whose Q-value is the row's maximum, below-or-equal to every action
index attaining that maximum (so exact ties resolve to the lowest index),
and independent of the random sample, hence reproducible across repeated
calls on the same state. -/
theorem c7_act_exploitation {σ : Type} (ag : Agent σ) (observation : σ)
    (u epsilon_e : ℚ) (sample sample₂ : ℕ)
    (hexploit : ¬ u < epsilon_e) (hne : ag.q_table observation ≠ []) :
    (ag.act observation u epsilon_e sample).1 = npArgmax (ag.q_table observation) ∧
    (ag.q_table observation).getD (ag.act observation u epsilon_e sample).1 0 =
      npMax (ag.q_table observation) ∧
    (∀ k, k < (ag.q_table observation).length →
      (ag.q_table observation).getD k 0 ≤
        (ag.q_table observation).getD (ag.act observation u epsilon_e sample).1 0) ∧
    (∀ k, k < (ag.q_table observation).length →
      (ag.q_table observation).getD k 0 = npMax (ag.q_table observation) →
      (ag.act observation u epsilon_e sample).1 ≤ k) ∧
    (ag.act observation u epsilon_e sample).1 =
      (ag.act observation u epsilon_e sample₂).1 := by
  have hact : ∀ smp : ℕ, (ag.act observation u epsilon_e smp).1 =
      npArgmax (ag.q_table observation) := by
    intro smp; unfold Agent.act; simp [hexploit]
  refine ⟨hact sample, ?_, ?_, ?_, ?_⟩
  · rw [hact sample]; exact getD_npArgmax hne
  · intro k hk
    rw [hact sample, getD_npArgmax hne]
    rw [List.getD_eq_getElem?_getD, List.getElem?_eq_getElem hk]
    exact le_npMax_of_mem ((ag.q_table observation).getElem_mem hk)
  · intro k hk hv
    rw [hact sample]
    exact npArgmax_le_of_eq_npMax hk hv
  · rw [hact sample, hact sample₂]

/-- A concrete two-state, two-action agent used by the witnesses: the
instantiation of the spec's worked example, with `Q[s][a] = -1`,
`max Q[s'] = -1/2`, learning rate `0.1` and discount `0.95`. -/
def exampleAgent : Agent ℕ where
  q_table := fun s => if s = 0 then [-1, -1] else [-1/2, -1/2]
  learning_rate := 1/10
  gamma := 19/20

/-- Witness for C7 at the concrete agent: exploitation at state `0`. -/
theorem c7_act_exploitation_witness :
    ¬ (1 : ℚ)/2 < 1/4 ∧ exampleAgent.q_table 0 ≠ [] ∧
    ((exampleAgent.act 0 (1/2) (1/4) 1).1 = npArgmax (exampleAgent.q_table 0) ∧
     (exampleAgent.q_table 0).getD (exampleAgent.act 0 (1/2) (1/4) 1).1 0 =
       npMax (exampleAgent.q_table 0) ∧
     (∀ k, k < (exampleAgent.q_table 0).length →
       (exampleAgent.q_table 0).getD k 0 ≤
         (exampleAgent.q_table 0).getD (exampleAgent.act 0 (1/2) (1/4) 1).1 0) ∧
     (∀ k, k < (exampleAgent.q_table 0).length →
       (exampleAgent.q_table 0).getD k 0 = npMax (exampleAgent.q_table 0) →
       (exampleAgent.act 0 (1/2) (1/4) 1).1 ≤ k) ∧
     (exampleAgent.act 0 (1/2) (1/4) 1).1 = (exampleAgent.act 0 (1/2) (1/4) 0).1) := by
  refine ⟨by norm_num, by simp [exampleAgent], ?_⟩
  exact c7_act_exploitation exampleAgent 0 (1/2) (1/4) 1 0
    (by norm_num) (by simp [exampleAgent])

/-- Claim C1: For in-range indices, `Agent.update` returns the signed delta
`learning_rate * ((reward + gamma * max Q[next]) - Q[s][a])` and the entry
`Q[s][a]` afterward equals its old value plus that delta.  (The witness
instantiates the spec's worked example: `Q[s][a] = -1`, `reward = 1`,
`gamma = 0.95`, `max Q[s'] = -0.5`, `learning_rate = 0.1`, giving delta
`0.1525` and new value `-0.8475`.) -/
lemma update_q_table_apply {σ : Type} [DecidableEq σ] (ag : Agent σ)
    (observation : σ) (action : ℕ) (next_observation : σ) (reward : ℚ) (s : σ) :
    (ag.update observation action next_observation reward).1.q_table s =
      if s = observation then
        (ag.q_table observation).set action
          ((ag.q_table observation).getD action 0 +
            ag.learning_rate * ((reward + ag.gamma * npMax (ag.q_table next_observation)) -
              (ag.q_table observation).getD action 0))
      else ag.q_table s := rfl

lemma update_snd {σ : Type} [DecidableEq σ] (ag : Agent σ)
    (observation : σ) (action : ℕ) (next_observation : σ) (reward : ℚ) :
    (ag.update observation action next_observation reward).2 =
      ((ag.update observation action next_observation reward).1.q_table observation).getD
          action 0 - (ag.q_table observation).getD action 0 := rfl

theorem c1_update_delta {σ : Type} [DecidableEq σ] (ag : Agent σ)
    (observation : σ) (action : ℕ) (next_observation : σ) (reward : ℚ)
    (ha : action < (ag.q_table observation).length) :
    (ag.update observation action next_observation reward).2 =
      ag.learning_rate * ((reward + ag.gamma * npMax (ag.q_table next_observation)) -
        (ag.q_table observation).getD action 0) ∧
    ((ag.update observation action next_observation reward).1.q_table observation).getD
        action 0 =
      (ag.q_table observation).getD action 0 +
        (ag.update observation action next_observation reward).2 := by
  have hset : ∀ v : ℚ, ((ag.q_table observation).set action v).getD action 0 = v := by
    intro v
    rw [List.getD_eq_getElem?_getD, List.getElem?_set_self ha]
    rfl
  have happ : (ag.update observation action next_observation reward).1.q_table observation =
      (ag.q_table observation).set action
        ((ag.q_table observation).getD action 0 +
          ag.learning_rate * ((reward + ag.gamma * npMax (ag.q_table next_observation)) -
            (ag.q_table observation).getD action 0)) := by
    rw [update_q_table_apply, if_pos rfl]
  constructor
  · rw [update_snd, happ, hset]; ring
  · rw [update_snd, happ, hset]; ring

/-- Witness for C1: the spec's worked numeric example, where the returned
delta is `0.1525 = 61/400` and the updated entry is `-0.8475 = -339/400`. -/
theorem c1_update_delta_witness :
    (0 : ℕ) < (exampleAgent.q_table 0).length ∧
    (exampleAgent.update 0 0 1 1).2 = 61/400 ∧
    ((exampleAgent.update 0 0 1 1).1.q_table 0).getD 0 0 = -339/400 ∧
    ((exampleAgent.update 0 0 1 1).2 =
      exampleAgent.learning_rate * ((1 + exampleAgent.gamma * npMax (exampleAgent.q_table 1)) -
        (exampleAgent.q_table 0).getD 0 0) ∧
     ((exampleAgent.update 0 0 1 1).1.q_table 0).getD 0 0 =
       (exampleAgent.q_table 0).getD 0 0 + (exampleAgent.update 0 0 1 1).2) := by
  refine ⟨by simp [exampleAgent], ?_, ?_, c1_update_delta exampleAgent 0 0 1 1 (by simp [exampleAgent])⟩
  · show ((exampleAgent.q_table 0).set 0 _).getD 0 0 - _ = _
    norm_num [exampleAgent, npMax]
  · show ((exampleAgent.q_table 0).set 0 _).getD 0 0 = _
    norm_num [exampleAgent, npMax]

/-- Claim C8: For the CartPole configuration the Q-table is allocated with
shape `[21, 21, 21, 21, 2]` — exactly `21 ^ 4 * 2` entries — and
`Agent.update` is a single-entry write: every row keeps its length, and
every entry other than `Q[state][action]` keeps its value. -/
theorem c8_shape_and_single_entry_write {σ : Type} [DecidableEq σ] (ag : Agent σ)
    (observation : σ) (action : ℕ) (next_observation : σ) (reward : ℚ)
    (t s : σ) (a : ℕ) (h : s ≠ observation ∨ a ≠ action) :
    qTableShape = [21, 21, 21, 21, 2] ∧
    qTableShape.prod = 21 ^ 4 * 2 ∧
    ((ag.update observation action next_observation reward).1.q_table t).length =
      (ag.q_table t).length ∧
    ((ag.update observation action next_observation reward).1.q_table s).getD a 0 =
      (ag.q_table s).getD a 0 := by
  refine ⟨rfl, by norm_num [qTableShape, get_observation_space_length,
    get_action_space_length, obs_dim, cartpole_n_bins], ?_, ?_⟩
  · rw [update_q_table_apply]
    by_cases ht : t = observation
    · rw [if_pos ht, List.length_set, ht]
    · rw [if_neg ht]
  · rw [update_q_table_apply]
    by_cases hs : s = observation
    · rcases h with h | h
      · exact absurd hs h
      · rw [if_pos hs, hs]
        rw [List.getD_eq_getElem?_getD, List.getElem?_set_ne (fun he => h he.symm),
          List.getD_eq_getElem?_getD]
    · rw [if_neg hs]

/-- Witness for C8 at the concrete example agent: after an update at
`(state 0, action 0)`, row `1` keeps its length and the entry
`(state 1, action 0)` keeps its value. -/
theorem c8_shape_and_single_entry_write_witness :
    ((1 : ℕ) ≠ 0 ∨ (0 : ℕ) ≠ 0) ∧
    (qTableShape = [21, 21, 21, 21, 2] ∧
     qTableShape.prod = 21 ^ 4 * 2 ∧
     ((exampleAgent.update 0 0 1 1).1.q_table 1).length = (exampleAgent.q_table 1).length ∧
     ((exampleAgent.update 0 0 1 1).1.q_table 1).getD 0 0 = (exampleAgent.q_table 1).getD 0 0) :=
  ⟨Or.inl (by norm_num),
   c8_shape_and_single_entry_write exampleAgent 0 0 1 1 1 1 0 (Or.inl (by norm_num))⟩

/-! Section: the training loop's statistics and early stop. -/

/-- The accuracy `main` records is `optimal_actions / (steps + 1)`, because
`episode_count` starts at `1` and is incremented once per step.  It is
therefore strictly below `1` for every episode, however the episode went. -/
lemma episodeAccuracy_lt_one (steps : List Step) : episodeAccuracy steps < 1 := by
  unfold episodeAccuracy
  have h1 : (steps.countP (fun st => decide (0 < st.reward)) : ℚ) ≤ steps.length := by
    exact_mod_cast List.countP_le_length _
  have h2 : (0 : ℚ) < (steps.length : ℚ) + 1 := by positivity
  rw [div_lt_one h2]
  linarith

/-- With an accuracy different from `1` freshly appended, the break
condition of `main` is false for every episode index inside
`range(n_episodes)`. -/
lemma breakCondition_false (n_episodes running_length episode_index : ℕ)
    (accs dels : List ℚ) (a : ℚ)
    (hi : episode_index < n_episodes) (ha : a ≠ 1) :
    breakCondition n_episodes running_length episode_index (accs ++ [a]) dels = false := by
  unfold breakCondition stopBoundExceeded
  have h1 : decide (n_episodes + running_length ≤ episode_index) = false := by
    simp only [decide_eq_false_iff_not, not_le]
    omega
  have h2 : (accs ++ [a]).all (fun accuracy => decide (accuracy = 1)) = false := by
    simp only [List.all_eq_false]
    exact ⟨a, by simp, by simpa using ha⟩
  rw [h1, h2]
  rfl

/-- The fold underlying `episodesRun` never leaves the not-yet-broken
state: every iteration appends an accuracy `< 1`, so the break condition
never fires. -/
lemma loop_foldl_first_none (n_episodes running_length : ℕ) (traces : ℕ → List Step) :
    ∀ (idxs : List ℕ) (accs dels : List ℚ), (∀ i ∈ idxs, i < n_episodes) →
      ((idxs.foldl (loopStep n_episodes running_length traces)
        (none, accs, dels)).1 = none) := by
  intro idxs
  induction idxs with
  | nil => intro accs dels _; rfl
  | cons i rest ih =>
    intro accs dels h
    have hi : i < n_episodes := h i (List.mem_cons_self i rest)
    have ha : episodeAccuracy (traces i) ≠ 1 :=
      ne_of_lt (episodeAccuracy_lt_one (traces i))
    have hb := breakCondition_false n_episodes running_length i accs
      (dels ++ [episodeDelta (traces i)]) (episodeAccuracy (traces i)) hi ha
    have hstep : loopStep n_episodes running_length traces (none, accs, dels) i =
        (none, accs ++ [episodeAccuracy (traces i)],
          dels ++ [episodeDelta (traces i)]) := by
      simp [loopStep, hb]
    rw [List.foldl_cons, hstep]
    exact ih _ _ (fun j hj => h j (List.mem_cons_of_mem i hj))

/-- The break statement of `main` never fires: for every episode count,
window length and environment behavior, the loop executes all
`n_episodes` episodes. -/
theorem episodesRun_always_full (n_episodes running_length : ℕ)
    (traces : ℕ → List Step) :
    episodesRun n_episodes running_length traces = n_episodes := by
  unfold episodesRun
  rw [loop_foldl_first_none n_episodes running_length traces (List.range n_episodes)
    [] [] (fun i hi => List.mem_range.mp hi)]
  rfl

/-- Claim C3: The claim says a synthetic environment with `reward > 0` on
every step and vanishing deltas makes the loop stop after the
`running_length` trailing window.  In the code it cannot: the recorded
accuracy is `successes / (steps + 1) < 1`, so the `accuracy == 1.0`
conjunct of the break condition is unsatisfiable and the loop always runs
the full episode count.  Here, with `n_episodes = 10`, one step per episode
with `reward = 1` and `delta = 0`, all `10` episodes execute instead of
stopping at `runningLength = 5`. -/
theorem c3_early_stop_never_fires :
    episodesRun 10 runningLength (fun _ => [⟨1, 0⟩]) = 10 ∧ runningLength = 5 :=
  ⟨episodesRun_always_full 10 runningLength (fun _ => [⟨1, 0⟩]), rfl⟩

/-- Claim C4: The claim says the recorded per-episode accuracy is
`positive-reward steps / steps taken`.  The code divides by
`episode_count`, which starts at `1` and is incremented once per step: for
an episode of one step with reward `1`, it records `1/2`, not `1/1 = 1`. -/
theorem c4_accuracy_denominator_off_by_one :
    episodeAccuracy [⟨1, 0⟩] = 1/2 ∧ episodeAccuracy [⟨1, 0⟩] ≠ 1 := by
  constructor
  · unfold episodeAccuracy
    norm_num
  · exact ne_of_lt (episodeAccuracy_lt_one _)

/-- Claim C9: The first disjunct of the break check,
`episode_index >= n_episodes + running_length`, is false for every index
the `range(n_episodes)` loop can reach, so it is never the cause of the
break. -/
theorem c9_stop_bound_unreachable (n_episodes running_length episode_index : ℕ)
    (h : episode_index < n_episodes) :
    stopBoundExceeded n_episodes running_length episode_index = false := by
  unfold stopBoundExceeded
  simp only [decide_eq_false_iff_not, not_le]
  omega

/-- Witness for C9 at `n_episodes = 10`, `running_length = 5`, last
reachable index `9`. -/
theorem c9_stop_bound_unreachable_witness :
    9 < 10 ∧ stopBoundExceeded 10 5 9 = false :=
  ⟨by norm_num, c9_stop_bound_unreachable 10 5 9 (by norm_num)⟩

/-! Section: the epsilon schedule. -/

lemma npLinspace_length (lo hi : ℚ) (n : ℕ) : (npLinspace lo hi n).length = n := by
  simp [npLinspace]

lemma npLinspace_getD (lo hi : ℚ) (n i : ℕ) (h : i < n) :
    (npLinspace lo hi n).getD i 0 = lo + i * (hi - lo) / ((n : ℚ) - 1) := by
  unfold npLinspace
  rw [List.getD_eq_getElem?_getD, List.getElem?_map, List.getElem?_range h]
  rfl

lemma epsilonSchedule_length (n : ℕ) : (epsilonSchedule n).length = n := by
  simp [epsilonSchedule, npLinspace]

lemma epsilonSchedule_getD (n i : ℕ) (h : i < n) :
    (epsilonSchedule n).getD i 0 = Real.exp (-5 * ((i : ℝ) / ((n : ℝ) - 1))) := by
  unfold epsilonSchedule npLinspace
  rw [List.getD_eq_getElem?_getD, List.getElem?_map, List.getElem?_map,
    List.getElem?_range h]
  have hcast : ((0 + (i : ℚ) * (1 - 0) / ((n : ℚ) - 1) : ℚ) : ℝ) =
      (i : ℝ) / ((n : ℝ) - 1) := by
    push_cast
    ring
  simp only [Option.map_some', Option.getD_some]
  rw [hcast]

/-- Claim C6: The epsilon schedule `np.exp(-5 * np.linspace(0, 1, n))`,
computed once at `Agent.__init__`, has length equal to the configured
episode count, starts at exactly `1`, ends at exactly `exp(-5)` (hence
within the decay tolerance `exp(-5)` of `0`), and is monotonically
non-increasing: `epsilon[j] ≤ epsilon[i]` for all `i < j` below the episode
count. -/
theorem c6_epsilon_schedule (n i j : ℕ) (hn : 2 ≤ n) (hij : i < j) (hj : j < n) :
    (epsilonSchedule n).length = n ∧
    (epsilonSchedule n).getD 0 0 = 1 ∧
    (epsilonSchedule n).getD (n - 1) 0 = Real.exp (-5) ∧
    (epsilonSchedule n).getD j 0 ≤ (epsilonSchedule n).getD i 0 := by
  have hd : (0 : ℝ) < (n : ℝ) - 1 := by
    have : (2 : ℝ) ≤ (n : ℝ) := by exact_mod_cast hn
    linarith
  refine ⟨epsilonSchedule_length n, ?_, ?_, ?_⟩
  · rw [epsilonSchedule_getD n 0 (by omega)]
    simp
  · rw [epsilonSchedule_getD n (n - 1) (by omega)]
    have hc : ((n - 1 : ℕ) : ℝ) = (n : ℝ) - 1 := by
      have : 1 ≤ n := by omega
      push_cast [this]
      ring
    rw [hc, div_self (ne_of_gt hd)]
    norm_num
  · rw [epsilonSchedule_getD n i (by omega), epsilonSchedule_getD n j hj]
    apply Real.exp_le_exp.mpr
    have hij' : (i : ℝ) ≤ (j : ℝ) := by
      exact_mod_cast le_of_lt hij
    have hdiv : (i : ℝ) / ((n : ℝ) - 1) ≤ (j : ℝ) / ((n : ℝ) - 1) := by
      gcongr
    exact mul_le_mul_of_nonpos_left hdiv (by norm_num)

/-- Witness for C6 at `n = 3`, `i = 0`, `j = 2`. -/
theorem c6_epsilon_schedule_witness :
    2 ≤ 3 ∧ 0 < 2 ∧ 2 < 3 ∧
    ((epsilonSchedule 3).length = 3 ∧
     (epsilonSchedule 3).getD 0 0 = 1 ∧
     (epsilonSchedule 3).getD (3 - 1) 0 = Real.exp (-5) ∧
     (epsilonSchedule 3).getD 2 0 ≤ (epsilonSchedule 3).getD 0 0) :=
  ⟨by norm_num, by norm_num, by norm_num,
   c6_epsilon_schedule 3 0 2 (by norm_num) (by norm_num) (by norm_num)⟩

/-! Section: discretization. -/

lemma npDigitize_le_length (v : ℚ) (edges : List ℚ) : npDigitize v edges ≤ edges.length :=
  List.countP_le_length _

lemma npDigitize_eq_zero (v : ℚ) (edges : List ℚ) (h : ∀ e ∈ edges, v < e) :
    npDigitize v edges = 0 := by
  unfold npDigitize
  rw [List.countP_eq_zero]
  intro e he
  simpa using not_le.mpr (h e he)

lemma npDigitize_eq_length (v : ℚ) (edges : List ℚ) (h : ∀ e ∈ edges, e ≤ v) :
    npDigitize v edges = edges.length := by
  unfold npDigitize
  rw [List.countP_eq_length]
  intro e he
  simpa using h e he

lemma npLinspace_mem_ge (lo hi : ℚ) (n : ℕ) (hlohi : lo ≤ hi) :
    ∀ e ∈ npLinspace lo hi n, lo ≤ e := by
  intro e he
  unfold npLinspace at he
  rw [List.mem_map] at he
  obtain ⟨k, hk, rfl⟩ := he
  rw [List.mem_range] at hk
  have h1 : 1 ≤ n := by omega
  have hd : (0 : ℚ) ≤ (n : ℚ) - 1 := by
    have : (1 : ℚ) ≤ (n : ℚ) := by exact_mod_cast h1
    linarith
  have hnn : (0 : ℚ) ≤ (k : ℚ) * (hi - lo) / ((n : ℚ) - 1) :=
    div_nonneg (mul_nonneg (by positivity) (by linarith)) hd
  linarith

lemma npLinspace_mem_le (lo hi : ℚ) (n : ℕ) (hlohi : lo ≤ hi) :
    ∀ e ∈ npLinspace lo hi n, e ≤ hi := by
  intro e he
  unfold npLinspace at he
  rw [List.mem_map] at he
  obtain ⟨k, hk, rfl⟩ := he
  rw [List.mem_range] at hk
  rcases Nat.lt_or_ge n 2 with h2 | h2
  · have hn1 : n = 1 := by omega
    have hk0 : k = 0 := by omega
    subst hn1
    subst hk0
    simpa using hlohi
  · have hd : (0 : ℚ) < (n : ℚ) - 1 := by
      have : (2 : ℚ) ≤ (n : ℚ) := by exact_mod_cast h2
      linarith
    have hk' : (k : ℚ) ≤ (n : ℚ) - 1 := by
      have hkn : k ≤ n - 1 := by omega
      have h1 : 1 ≤ n := by omega
      calc (k : ℚ) ≤ ((n - 1 : ℕ) : ℚ) := by exact_mod_cast hkn
        _ = (n : ℚ) - 1 := by push_cast [h1]; ring
    have hnum : (k : ℚ) * (hi - lo) ≤ ((n : ℚ) - 1) * (hi - lo) :=
      mul_le_mul_of_nonneg_right hk' (by linarith)
    have hq : (k : ℚ) * (hi - lo) / ((n : ℚ) - 1) ≤ hi - lo := by
      rw [div_le_iff₀ hd]
      linarith
    linarith

/-- For `i` inside the observation dimensions, the entry `main` would use
from `set_observation` is `np.digitize(observation[i], bins[i]) - 1`. -/
lemma set_observation_getD (observation : ℕ → ℚ) (i : ℕ) (hi : i < obs_dim) :
    (set_observation observation).getD i 0 =
      (npDigitize (observation i) (cartpole_bins.getD i []) : ℤ) - 1 := by
  unfold set_observation
  rw [List.getD_eq_getElem?_getD, List.getElem?_map, List.getElem?_range hi]
  rfl

/-- The index produced for one dimension whose edge table is
`np.linspace lo hi 20`: it lies in `[-1, 19]`, is `-1` strictly below the
lowest edge `lo`, and is `19` at or above the highest edge `hi`. -/
lemma digitize_minus_one_range (v lo hi : ℚ) (hlohi : lo ≤ hi) :
    (-1 ≤ (npDigitize v (npLinspace lo hi 20) : ℤ) - 1 ∧
     (npDigitize v (npLinspace lo hi 20) : ℤ) - 1 ≤ 19) ∧
    (v < lo → (npDigitize v (npLinspace lo hi 20) : ℤ) - 1 = -1) ∧
    (hi ≤ v → (npDigitize v (npLinspace lo hi 20) : ℤ) - 1 = 19) := by
  have hlen : (npLinspace lo hi 20).length = 20 := npLinspace_length lo hi 20
  have hle : npDigitize v (npLinspace lo hi 20) ≤ 20 := by
    have := npDigitize_le_length v (npLinspace lo hi 20)
    omega
  refine ⟨⟨by omega, by omega⟩, ?_, ?_⟩
  · intro hv
    have h0 : npDigitize v (npLinspace lo hi 20) = 0 :=
      npDigitize_eq_zero _ _
        (fun e he => lt_of_lt_of_le hv (npLinspace_mem_ge lo hi 20 hlohi e he))
    rw [h0]
    rfl
  · intro hv
    have h20 : npDigitize v (npLinspace lo hi 20) = 20 := by
      rw [npDigitize_eq_length _ _
        (fun e he => le_trans (npLinspace_mem_le lo hi 20 hlohi e he) hv), hlen]
    rw [h20]
    rfl

/-- Claim C2 counterexample: At raw value `-5`, strictly below dimension 0's
lowest edge `-4.8`, the code produces index `-1` — not `0`, and outside
`[0, n_bins]`; at raw value `5`, above the highest edge `4.8`, it produces
`19`, not `n_bins = 20`. -/
theorem c2_counterexample :
    (set_observation (fun _ => -5)).getD 0 0 = -1 ∧
    ¬ (0 ≤ (set_observation (fun _ => -5)).getD 0 0) ∧
    (set_observation (fun _ => 5)).getD 0 0 = 19 ∧
    (set_observation (fun _ => 5)).getD 0 0 ≠ 20 := by
  have hbins : cartpole_bins.getD 0 [] = npLinspace (-4.8) 4.8 20 := rfl
  have hlow := (digitize_minus_one_range (-5) (-4.8) 4.8 (by norm_num)).2.1 (by norm_num)
  have hhigh := (digitize_minus_one_range 5 (-4.8) 4.8 (by norm_num)).2.2 (by norm_num)
  have e1 : (set_observation (fun _ => -5)).getD 0 0 = -1 := by
    rw [set_observation_getD (fun _ => -5) 0 (by decide), hbins]
    exact hlow
  have e2 : (set_observation (fun _ => 5)).getD 0 0 = 19 := by
    rw [set_observation_getD (fun _ => 5) 0 (by decide), hbins]
    exact hhigh
  refine ⟨e1, ?_, e2, ?_⟩
  · rw [e1]; norm_num
  · rw [e2]; norm_num

/-- Claim C2 amended: The code builds each edge table with
`np.linspace(lo, hi, n_bins)` — `n_bins = 20` edges, not `n_bins + 1` — and
subtracts `1` from `np.digitize`, so for every dimension and raw value the
produced bin index lies in `[-1, n_bins - 1] = [-1, 19]`: values strictly
below the lowest edge map to `-1` and values at or above the highest edge
map to `19`. -/
theorem c2_amended_index_range (observation : ℕ → ℚ) (i : ℕ) (hi : i < 4) :
    (-1 ≤ (set_observation observation).getD i 0 ∧
     (set_observation observation).getD i 0 ≤ 19) ∧
    (observation i < lowEdge i → (set_observation observation).getD i 0 = -1) ∧
    (highEdge i ≤ observation i → (set_observation observation).getD i 0 = 19) := by
  have hobs : i < obs_dim := hi
  rw [set_observation_getD observation i hobs]
  interval_cases i
  · have hbins : cartpole_bins.getD 0 [] = npLinspace (-4.8) 4.8 20 := rfl
    have hlo : lowEdge 0 = -4.8 := by
      rw [lowEdge, hbins, npLinspace_getD _ _ 20 0 (by norm_num)]
      norm_num
    have hhi : highEdge 0 = 4.8 := by
      rw [highEdge, hbins]
      rw [show cartpole_n_bins - 1 = 19 from rfl, npLinspace_getD _ _ 20 19 (by norm_num)]
      norm_num
    rw [hbins, hlo, hhi]
    exact digitize_minus_one_range (observation 0) (-4.8) 4.8 (by norm_num)
  · have hbins : cartpole_bins.getD 1 [] = npLinspace (-4) 4 20 := rfl
    have hlo : lowEdge 1 = -4 := by
      rw [lowEdge, hbins, npLinspace_getD _ _ 20 0 (by norm_num)]
      norm_num
    have hhi : highEdge 1 = 4 := by
      rw [highEdge, hbins]
      rw [show cartpole_n_bins - 1 = 19 from rfl, npLinspace_getD _ _ 20 19 (by norm_num)]
      norm_num
    rw [hbins, hlo, hhi]
    exact digitize_minus_one_range (observation 1) (-4) 4 (by norm_num)
  · have hbins : cartpole_bins.getD 2 [] = npLinspace (-0.418) 0.418 20 := rfl
    have hlo : lowEdge 2 = -0.418 := by
      rw [lowEdge, hbins, npLinspace_getD _ _ 20 0 (by norm_num)]
      norm_num
    have hhi : highEdge 2 = 0.418 := by
      rw [highEdge, hbins]
      rw [show cartpole_n_bins - 1 = 19 from rfl, npLinspace_getD _ _ 20 19 (by norm_num)]
      norm_num
    rw [hbins, hlo, hhi]
    exact digitize_minus_one_range (observation 2) (-0.418) 0.418 (by norm_num)
  · have hbins : cartpole_bins.getD 3 [] = npLinspace (-4) 4 20 := rfl
    have hlo : lowEdge 3 = -4 := by
      rw [lowEdge, hbins, npLinspace_getD _ _ 20 0 (by norm_num)]
      norm_num
    have hhi : highEdge 3 = 4 := by
      rw [highEdge, hbins]
      rw [show cartpole_n_bins - 1 = 19 from rfl, npLinspace_getD _ _ 20 19 (by norm_num)]
      norm_num
    rw [hbins, hlo, hhi]
    exact digitize_minus_one_range (observation 3) (-4) 4 (by norm_num)

/-- Witness for the amended C2 at dimension `0` and raw value `-5`. -/
theorem c2_amended_index_range_witness :
    (0 : ℕ) < 4 ∧
    ((-1 ≤ (set_observation (fun _ => (-5 : ℚ))).getD 0 0 ∧
      (set_observation (fun _ => (-5 : ℚ))).getD 0 0 ≤ 19) ∧
     ((fun _ => (-5 : ℚ)) 0 < lowEdge 0 →
       (set_observation (fun _ => (-5 : ℚ))).getD 0 0 = -1) ∧
     (highEdge 0 ≤ (fun _ => (-5 : ℚ)) 0 →
       (set_observation (fun _ => (-5 : ℚ))).getD 0 0 = 19)) :=
  ⟨by norm_num, c2_amended_index_range (fun _ => (-5 : ℚ)) 0 (by norm_num)⟩

/-! Section: environment construction for unsupported families. -/

/-- Claim C5 counterexample: Constructing the adapter for
`"MountainCar-v0"` — an environment family with no discretization rule —
does not fail at all: `__init__` completes normally (the program defines no
`ConfigurationError`), merely leaving `n_bins` and `bins` unassigned. -/
theorem c5_counterexample :
    (MyEnvironment.init "MountainCar-v0").environment_name = "MountainCar-v0" ∧
    (MyEnvironment.init "MountainCar-v0").n_bins = none ∧
    (MyEnvironment.init "MountainCar-v0").bins = none := by
  refine ⟨?_, ?_, ?_⟩ <;> decide

/-- Claim C5 amended: For every environment name not containing
`'CartPole'`, construction succeeds and returns an adapter whose
discretization attributes (`n_bins`, `bins`) are simply never assigned; no
`ConfigurationError` (or any other error) is raised — later observation
queries would fall through to undefined attributes instead. -/
theorem c5_amended_silent_fallthrough (environment_name : String)
    (h : strContains environment_name "CartPole" = false) :
    (MyEnvironment.init environment_name).environment_name = environment_name ∧
    (MyEnvironment.init environment_name).n_bins = none ∧
    (MyEnvironment.init environment_name).bins = none := by
  unfold MyEnvironment.init
  rw [h]
  exact ⟨rfl, rfl, rfl⟩

/-- Witness for the amended C5 at the concrete name `"MountainCar-v0"`. -/
theorem c5_amended_silent_fallthrough_witness :
    strContains "MountainCar-v0" "CartPole" = false ∧
    ((MyEnvironment.init "MountainCar-v0").environment_name = "MountainCar-v0" ∧
     (MyEnvironment.init "MountainCar-v0").n_bins = none ∧
     (MyEnvironment.init "MountainCar-v0").bins = none) :=
  ⟨by decide, c5_amended_silent_fallthrough "MountainCar-v0" (by decide)⟩

end CartpoleQ
